import Mathlib

/-!
# Verification of the monitoring agent's subscription hub and controller

This development embeds the core of the `h0rzn/monitoring_agent` repository:
the subscription hub (`api/hub`, in `src/api/container.go`), the controller
event synchronizer and initialization (`dock/controller`), and the HTTP/WS
container handlers (`package api`).

Go pointers to `Ressource` values are modelled as natural-number heap
addresses (`RRef`) together with an explicit heap `RRef → Option Ressource`;
the Go map `Ressources map[*container.Container][]*Ressource` is modelled as
an association list keyed by the container identity returned from the
inventory lookup.  Machine-level details (channels, goroutine scheduling,
logging text) are abstracted: channel fan-out is modelled as explicit queue
construction, launched goroutines as a `handlers` list, and log statements
as inert (they do not affect state).
-/

/-- A connected websocket client.  Identity (Go pointer equality) is
modelled by a numeric id. -/
structure Client where
  id : Nat
deriving DecidableEq, Repr

/-- The data pointed to by a `*Ressource`: one (containerID, resource-kind)
stream multiplexer with its ordered receiver list
(fields `ContainerID`, `Event`, `Receivers` from the source). -/
structure Ressource where
  ContainerID : String
  Event : String
  Receivers : List Client
deriving DecidableEq, Repr

/-- Heap address of a `*Ressource` (Go pointer). -/
abbrev RRef := Nat

/-- Modelled from the spec: the `Demand` value
`{Ressource: resourceKind, CID: containerID, Client: *Client}` (its Go file
is not part of the sources; the field list is taken from the spec's data
model section). -/
structure Demand where
  Ressource : String
  CID : String
  Client : Client
deriving DecidableEq, Repr

/-- The hub state: `known` models the inventory of container ids behind
`Ctr.ContainerGet`; `registry` is the `Ressources` map (container identity →
list of resource pointers); `heap` gives each allocated `*Ressource` its
current contents; `next` is the allocator for fresh addresses; `handlers`
records the fan-out goroutines launched by `go h.HandleRessource(...)`. -/
structure Hub where
  known : List String
  registry : List (String × List RRef)
  heap : RRef → Option Ressource
  next : RRef
  handlers : List RRef

/-- Modelled from the spec: the external inventory collaborator's
`ContainerGet(id) -> (containerHandle, exists)`; the container handle is its
id.  (The inventory store is an external collaborator, interfaces only.) -/
def containerGet (h : Hub) (cid : String) : Option String :=
  if cid ∈ h.known then some cid else none

/-- Go map read `h.Ressources[container]` (absent key reads as nil slice). -/
def regGet : List (String × List RRef) → String → List RRef
  | [], _ => []
  | e :: rest, key => if key = e.1 then e.2 else regGet rest key

/-- Go map write `h.Ressources[container] = slice` (inserts if absent). -/
def regSet : List (String × List RRef) → String → List RRef → List (String × List RRef)
  | [], key, l => [(key, l)]
  | e :: rest, key, l => if key = e.1 then (e.1, l) :: rest else e :: regSet rest key l

/-- Go `h.Ressources[container] = append(h.Ressources[container], r)`. -/
def regAppend (reg : List (String × List RRef)) (key : String) (r : RRef) :
    List (String × List RRef) :=
  regSet reg key (regGet reg key ++ [r])

/-- All resource pointers reachable from the registry (all containers). -/
def registryRefs : List (String × List RRef) → List RRef
  | [] => []
  | e :: rest => e.2 ++ registryRefs rest

/-- Point update of the heap at one address. -/
def heapMap (hp : RRef → Option Ressource) (ref : RRef) (f : Ressource → Ressource) :
    RRef → Option Ressource :=
  fun x => if x = ref then (hp x).map f else hp x

/-- `res.Receivers = append(res.Receivers, dem.Client)`. -/
def appendReceiver (cl : Client) (rd : Ressource) : Ressource :=
  { rd with Receivers := rd.Receivers ++ [cl] }

/-- Modelled from the spec: `res.RemoveClient(c)` (its Go file is not part
of the sources); removes the client from the receiver list so that no
receiver entry for it remains, per the spec's leave-cleanup contract. -/
def removeClient (cl : Client) (rd : Ressource) : Ressource :=
  { rd with Receivers := rd.Receivers.filter (fun x => x ≠ cl) }

/-- Modelled from the spec: `NewRessource(cid, event, client)` (its Go file
is not part of the sources); builds a fresh resource whose receiver list
holds the demanding client, per the spec's concrete scenario. -/
def newRessource (cid event : String) (cl : Client) : Ressource :=
  { ContainerID := cid, Event := event, Receivers := [cl] }

/-- The linear scan inside `Hub.Ressource`:
`ressources[i].ContainerID == cid && ressources[i].Event == event`. -/
def findRes (hp : RRef → Option Ressource) (refs : List RRef) (cid event : String) :
    Option RRef :=
  match refs with
  | [] => none
  | ref :: rest =>
    match hp ref with
    | some rd =>
      if rd.ContainerID = cid ∧ rd.Event = event then some ref
      else findRes hp rest cid event
    | none => findRes hp rest cid event

/-- `Hub.Ressource(cid, event)`: inventory lookup, registry read, linear
scan; the `exists` result is modelled by the `Option`. -/
def hubRessource (h : Hub) (cid event : String) : Option RRef :=
  match containerGet h cid with
  | none => none
  | some c => findRes h.heap (regGet h.registry c) cid event

/-- `Hub.Subscribe(dem)`: resolve the container (silent no-op when unknown);
if a resource for (cid, kind) exists append the demanding client to its
receiver list, otherwise allocate a new resource, register it under the
container's registry entry and launch its fan-out goroutine. -/
def subscribe (h : Hub) (dem : Demand) : Hub :=
  match containerGet h dem.CID with
  | none => h
  | some c =>
    match hubRessource h dem.CID dem.Ressource with
    | some ref => { h with heap := heapMap h.heap ref (appendReceiver dem.Client) }
    | none =>
      { h with
        heap := fun x => if x = h.next then some (newRessource dem.CID dem.Ressource dem.Client) else h.heap x
        registry := regAppend h.registry c h.next
        next := h.next + 1
        handlers := h.handlers ++ [h.next] }

/-- `Hub.Unsubscribe(dem)`: resolve container and resource; if the client is
present in the receiver list, `RemoveClient` it. -/
def unsubscribe (h : Hub) (dem : Demand) : Hub :=
  match containerGet h dem.CID with
  | none => h
  | some _ =>
    match hubRessource h dem.CID dem.Ressource with
    | none => h
    | some ref =>
      match h.heap ref with
      | none => h
      | some rd =>
        if dem.Client ∈ rd.Receivers then
          { h with heap := heapMap h.heap ref (removeClient dem.Client) }
        else h

/-- Inner loop of `Hub.ClientLeave`: call `RemoveClient` on every resource
pointer of one registry entry. -/
def leaveRefs (hp : RRef → Option Ressource) (cl : Client) :
    List RRef → (RRef → Option Ressource)
  | [] => hp
  | ref :: rest => leaveRefs (heapMap hp ref (removeClient cl)) cl rest

/-- Outer loop of `Hub.ClientLeave`: scan every registry entry. -/
def leaveReg (hp : RRef → Option Ressource) (cl : Client) :
    List (String × List RRef) → (RRef → Option Ressource)
  | [] => hp
  | e :: rest => leaveReg (leaveRefs hp cl e.2) cl rest

/-- `Hub.ClientLeave(c)`: remove the client from every resource of every
container in the registry. -/
def clientLeave (h : Hub) (cl : Client) : Hub :=
  { h with heap := leaveReg h.heap cl h.registry }

/-- Remove the first occurrence: net effect of
`append(ressources[:rIdx], ressources[rIdx+1:]...)` at the first index
returned by `slices.Index` (the transient zero-out write is overwritten by
the append and has no net effect). -/
def removeFirst : List RRef → RRef → List RRef
  | [], _ => []
  | x :: xs, r => if x = r then xs else x :: removeFirst xs r

/-- The mutex-protected section of `Hub.RemoveRessource`, applied to the
state at lock time (`hLock`) while the emptiness check and the slice/index
reads happened earlier, against `hCheck` (in the source they precede
`h.mutex.Lock()`). -/
def removeRessourcePhased (hCheck hLock : Hub) (c : String) (r : RRef) : Hub :=
  match hCheck.heap r with
  | none => hLock
  | some rd =>
    if rd.Receivers.length = 0 then
      let ressources := regGet hCheck.registry c
      if r ∈ ressources then
        { hLock with registry := regSet hLock.registry c (removeFirst ressources r) }
      else hLock
    else hLock

/-- `Hub.RemoveRessource(c, r)` run without interference (check state =
removal state). -/
def removeRessource (h : Hub) (c : String) (r : RRef) : Hub :=
  removeRessourcePhased h h c r

/-- The four channels declared in the `Endpoints` struct. -/
inductive Endpoint
  | Subscribe
  | Unsubscribe
  | Leave
  | Relay
deriving DecidableEq, Repr

/-- Which endpoint channels `Hub.Run`'s select statement has a receive case
for (from the source: `case dem := <-h.Eps.Subscribe`, `...Unsubscribe`,
`case client := <-h.Eps.Leave`; there is no case for `Relay`). -/
def runReceives : Endpoint → Bool
  | .Subscribe => true
  | .Unsubscribe => true
  | .Leave => true
  | .Relay => false

/-- One sample produced by a resource's underlying stream (`stream.Set`);
the payload is opaque. -/
structure StreamSet where
  data : Nat
deriving DecidableEq, Repr

/-- A message arriving at one of the hub's endpoint channels. -/
inductive HubMsg
  | sub (d : Demand)
  | unsub (d : Demand)
  | leave (c : Client)
  | relay (s : StreamSet)
deriving Repr

/-- One iteration of `Hub.Run`'s select loop: dispatch a received value to
the corresponding handler.  A `relay` message has no receive case in the
source's select statement, so it is never consumed (`none`). -/
def runStep (h : Hub) : HubMsg → Option Hub
  | .sub d => some (subscribe h d)
  | .unsub d => some (unsubscribe h d)
  | .leave c => some (clientLeave h c)
  | .relay _ => none

/-- The outbound message built once per stream sample in
`Hub.HandleRessource`: `frame := &ResponseFrame{CID, Type, Content}`. -/
structure ResponseFrame where
  CID : String
  FrameType : String
  Content : Nat
deriving DecidableEq, Repr

/-- One delivery round of the fan-out loop: the frame built for the sample
(one shared frame value pushed to every receiver) and the receiver list in
effect while the round's pushes ran. -/
structure RoundOut where
  frame : ResponseFrame
  receivers : List Client
deriving DecidableEq, Repr

/-- The `for set := range r.Data.In` loop of `Hub.HandleRessource`.  The
input pairs each produced sample with the receiver list current at that
round (the list may be mutated between rounds by the hub's handlers).  Per
round one `ResponseFrame` is built and pushed to every current receiver;
after the pushes, `if len(r.Receivers) == 0 { break }` exits the loop. -/
def fanRounds (cid event : String) : List (StreamSet × List Client) → List RoundOut
  | [] => []
  | (s, recvs) :: rest =>
    ⟨⟨cid, event, s.data⟩, recvs⟩ ::
      (if recvs = [] then [] else fanRounds cid event rest)

/-- What `Hub.HandleRessource` does after its loop exits. -/
inductive PostAction
  | quit
  | removeRequest
deriving DecidableEq, Repr

/-- Result of one run of `Hub.HandleRessource`'s body: the delivery rounds,
then `r.Quit()` followed by `h.RemoveRessource(container, r)` (always, once
the loop exits — by break or because the stream closed).  `Quit` itself is
modelled from the spec (its Go file is not part of the sources): it signals
the underlying stream to stop. -/
structure FanResult where
  rounds : List RoundOut
  post : List PostAction
deriving DecidableEq, Repr

/-- `Hub.HandleRessource` on a finite stream history. -/
def handleRessource (cid event : String) (input : List (StreamSet × List Client)) :
    FanResult :=
  { rounds := fanRounds cid event input
    post := [PostAction.quit, PostAction.removeRequest] }

/-- The sequence of channel pushes `r.Receivers[idx].In <- frame` performed
by the fan-out loop, in program order. -/
def sends : List RoundOut → List (Client × ResponseFrame)
  | [] => []
  | ro :: rest => ro.receivers.map (fun c => (c, ro.frame)) ++ sends rest

/-- The queue of frames a given client receives from the fan-out loop, in
push order. -/
def queueOf (cl : Client) (rounds : List RoundOut) : List ResponseFrame :=
  ((sends rounds).filter (fun p => p.1 = cl)).map (fun p => p.2)

/-- A raw engine event envelope, restricted to the consumed fields
(`events.Message`): type, status, container id.  The Go field `Type` is
rendered `EType` because `Type` is reserved in Lean. -/
structure EventMsg where
  EType : String
  Status : String
  ID : String
deriving DecidableEq, Repr

/-- `dock_events.ContainerEventType` from the Docker client library. -/
def containerEventType : String := "container"

/-- An inventory mutation invoked by the controller's event handler. -/
inductive InvCall
  | add (id : String)
  | stop (id : String)
  | remove (id : String)
deriving DecidableEq, Repr

/-- A log statement emitted by the controller's event handler. -/
inductive LogEntry
  | execResult (status : String)
  | warnUnknown (status : String)
deriving DecidableEq, Repr

/-- `logEventExec(err, e)`: logs the outcome (success or failure) of one
dispatched event, never propagating the error. -/
def logEventExec (status : String) : List LogEntry :=
  [LogEntry.execResult status]

/-- `Controller.ContainerStart(e)`: one `Containers.Add(e.ID)` call plus the
outcome log. -/
def containerStart (e : EventMsg) : List InvCall × List LogEntry :=
  ([InvCall.add e.ID], logEventExec e.Status)

/-- `Controller.ContainerStop(e)`: one `Containers.Stop(e.ID)` call plus the
outcome log. -/
def containerStop (e : EventMsg) : List InvCall × List LogEntry :=
  ([InvCall.stop e.ID], logEventExec e.Status)

/-- `Controller.ContainerDestroy(e)`: one `Containers.Remove(e.ID)` call
plus the outcome log. -/
def containerDestroy (e : EventMsg) : List InvCall × List LogEntry :=
  ([InvCall.remove e.ID], logEventExec e.Status)

/-- The body of `Controller.HandleEvents` for one received event: events of
a non-container type are skipped with `continue` (no call, no log); for
container events the status switch dispatches to exactly one of
`ContainerStart`/`ContainerStop`/`ContainerDestroy`, with a warning log in
the default case.  (A Go `switch` on a string compares the cases in
order, which the if-chain mirrors.) -/
def handleEvent (e : EventMsg) : List InvCall × List LogEntry :=
  if e.EType ≠ containerEventType then ([], [])
  else if e.Status = "start" then containerStart e
  else if e.Status = "stop" then containerStop e
  else if e.Status = "destroy" then containerDestroy e
  else ([], [LogEntry.warnUnknown e.Status])

/-- `Controller.Init` (the variant without the About refresh): run
`Events.Init`, `Images.Init`, `Containers.Init`, `DB.Init` in order,
returning the first failing store's error; the DB error, when reached, is
logged and then returned (`return err`).  Each argument is the error result
of the corresponding collaborator's `Init`. -/
def controllerInit (eventsErr imagesErr containersErr dbErr : Option String) :
    Option String :=
  match eventsErr with
  | some e => some e
  | none =>
    match imagesErr with
    | some e => some e
    | none =>
      match containersErr with
      | some e => some e
      | none => dbErr

/-- `Storage.Init`: run `ImageStore.Init`, `ContainerStore.Init`, `DB.Init`
in order; image/container store errors are returned, but after `DB.Init`
the function executes `return nil`, so a DB error is logged and dropped. -/
def storageInit (imagesErr containersErr dbErr : Option String) : Option String :=
  match imagesErr with
  | some e => some e
  | none =>
    match containersErr with
    | some e => some e
    | none =>
      match dbErr with
      | some _ => none
      | none => none

/-- The observable effect of `API.Run`: it calls `api.Controller.Init()`
discarding its error result, then starts the hub goroutine and the router
unconditionally. -/
structure RunTrace where
  initErr : Option String
  hubStarted : Bool
  routerStarted : Bool
deriving DecidableEq, Repr

/-- `API.Run` given the result of `Controller.Init`. -/
def apiRun (initResult : Option String) : RunTrace :=
  { initErr := initResult, hubStarted := true, routerStarted := true }

/-- Largest address in a list of live pointers. -/
def maxAddr (l : List Nat) : Nat := l.foldr max 0

/-- The address produced by evaluating `&dock.Container{}`: a fresh
allocation of a non-zero-sized struct, hence an address distinct from every
live pointer (in particular from the lookup result).  Modelled as one past
the maximum live address. -/
def freshContainerAddr (live : List Nat) : Nat := maxAddr live + 1

/-- Outcome of the not-found check in a handler. -/
inductive HandlerStep
  | notFound404
  | proceedBody
deriving DecidableEq, Repr

/-- The check `if container == (&dock.Container{})` in `API.Container`:
compare the looked-up pointer against a freshly allocated empty container
value; `ptr` is the lookup result, `live` the other live allocations. -/
def containerHandlerBranch (ptr : Nat) (live : List Nat) : HandlerStep :=
  if ptr = freshContainerAddr (ptr :: live) then HandlerStep.notFound404
  else HandlerStep.proceedBody

/-- The same check in `API.metricsWS`. -/
def metricsWSBranch (ptr : Nat) (live : List Nat) : HandlerStep :=
  if ptr = freshContainerAddr (ptr :: live) then HandlerStep.notFound404
  else HandlerStep.proceedBody

/-- The same check in `API.logsWS`. -/
def logsWSBranch (ptr : Nat) (live : List Nat) : HandlerStep :=
  if ptr = freshContainerAddr (ptr :: live) then HandlerStep.notFound404
  else HandlerStep.proceedBody

example : regGet [("c1", [0, 1]), ("c2", [2])] "c2" = [2] := by decide
example : registryRefs [("c1", [0, 1]), ("c2", [2])] = [0, 1, 2] := by decide
example :
    hubRessource
      { known := ["c1"], registry := [("c1", [0])],
        heap := fun x => if x = 0 then some ⟨"c1", "metrics", []⟩ else none,
        next := 1, handlers := [0] } "c1" "metrics" = some 0 := by decide

lemma le_maxAddr {l : List Nat} {x : Nat} (hx : x ∈ l) : x ≤ maxAddr l := by
  induction l with
  | nil => cases hx
  | cons y ys ih =>
    rcases List.mem_cons.mp hx with h | h
    · subst h; exact Nat.le_max_left _ _
    · exact le_trans (ih h) (Nat.le_max_right _ _)

lemma ne_freshContainerAddr (ptr : Nat) (live : List Nat) :
    ptr ≠ freshContainerAddr (ptr :: live) := by
  have h : ptr ≤ maxAddr (ptr :: live) := le_maxAddr (List.mem_cons_self _ _)
  unfold freshContainerAddr
  omega

/-- Claim C10: in `API.Container`, `API.metricsWS` and `API.logsWS` the
not-found check compares the looked-up container pointer against a freshly
allocated empty container value, which is false for every possible lookup
result; the "container not found" branch is unreachable and a 404 response
is never produced, whether or not the container exists. -/
theorem notfound_check_unreachable (ptr : Nat) (live : List Nat) :
    containerHandlerBranch ptr live = HandlerStep.proceedBody ∧
    metricsWSBranch ptr live = HandlerStep.proceedBody ∧
    logsWSBranch ptr live = HandlerStep.proceedBody := by
  have h := ne_freshContainerAddr ptr live
  refine ⟨?_, ?_, ?_⟩ <;>
    simp [containerHandlerBranch, metricsWSBranch, logsWSBranch, h]

/-- Claim C2: per received engine event, a non-container event type causes
zero inventory calls and no log; for container events, status "start"
causes exactly one `Containers.Add(id)` call, "stop" exactly one
`Containers.Stop(id)`, "destroy" exactly one `Containers.Remove(id)`, and
any other status causes zero inventory calls and only a warning log. -/
theorem handleEvent_lifecycle_dispatch (e : EventMsg) :
    (handleEvent e).1.count (InvCall.add e.ID) =
      (if e.EType = containerEventType ∧ e.Status = "start" then 1 else 0) ∧
    (handleEvent e).1.count (InvCall.stop e.ID) =
      (if e.EType = containerEventType ∧ e.Status = "stop" then 1 else 0) ∧
    (handleEvent e).1.count (InvCall.remove e.ID) =
      (if e.EType = containerEventType ∧ e.Status = "destroy" then 1 else 0) ∧
    (e.EType ≠ containerEventType → handleEvent e = ([], [])) ∧
    (e.EType = containerEventType → e.Status ≠ "start" → e.Status ≠ "stop" →
      e.Status ≠ "destroy" →
      handleEvent e = ([], [LogEntry.warnUnknown e.Status])) := by
  by_cases ht : e.EType = containerEventType
  · by_cases h1 : e.Status = "start"
    · simp [handleEvent, containerStart, logEventExec, ht, h1]
    · by_cases h2 : e.Status = "stop"
      · simp [handleEvent, containerStop, logEventExec, ht, h1, h2]
      · by_cases h3 : e.Status = "destroy"
        · simp [handleEvent, containerDestroy, logEventExec, ht, h1, h2, h3]
        · simp [handleEvent, ht, h1, h2, h3]
  · simp [handleEvent, ht]

/-- Witness for C2 at concrete events: a non-container event is discarded
without any call or log, and a container "start" event yields exactly one
`Add` call. -/
theorem handleEvent_lifecycle_dispatch_witness :
    handleEvent { EType := "network", Status := "start", ID := "x" } = ([], []) ∧
    (handleEvent { EType := "container", Status := "start", ID := "x" }).1.count
      (InvCall.add "x") = 1 := by
  refine ⟨(handleEvent_lifecycle_dispatch _).2.2.2.1 (by decide), ?_⟩
  exact (handleEvent_lifecycle_dispatch
    { EType := "container", Status := "start", ID := "x" }).1.trans (by decide)

/-- Claim C6: a Subscribe demand whose container id is unknown to the
inventory returns without any effect on the hub state: no resource is
created, the registry is unchanged, and (the handler having no error
result at all) no error is delivered to the demanding client. -/
theorem subscribe_unknown_noop (h : Hub) (dem : Demand)
    (hcg : containerGet h dem.CID = none) : subscribe h dem = h := by
  unfold subscribe
  rw [hcg]

def c6hub : Hub :=
  { known := ["c1"], registry := [("c1", [0])],
    heap := fun x => if x = 0 then some ⟨"c1", "metrics", []⟩ else none,
    next := 1, handlers := [0] }

/-- Witness for C6: subscribing to the unknown container id "zz" leaves the
hub untouched. -/
theorem subscribe_unknown_noop_witness :
    subscribe c6hub { Ressource := "metrics", CID := "zz", Client := ⟨3⟩ } = c6hub :=
  subscribe_unknown_noop _ _ (by decide)

/-- Counterexample to claim C8 as stated: a DB (persistence sink) `Init`
failure is not propagated by `Storage.Init` (which logs it and then
executes `return nil`), and `API.Run` discards the error returned by
`Controller.Init`, starting the hub goroutine and the router regardless,
so startup is not aborted. -/
theorem init_failure_cex :
    storageInit none none (some "db init failed") = none ∧
    (apiRun (controllerInit none none none (some "db init failed"))).routerStarted = true ∧
    (apiRun (some "db init failed")).hubStarted = true := by
  exact ⟨rfl, rfl, rfl⟩

/-- Claim C8 as amended: `Controller.Init` returns the first failing
sub-init's error (including a DB failure), and `Storage.Init` returns
image/container store failures, but swallows a DB `Init` failure
(returning nil); `API.Run` ignores the error returned by the controller's
`Init` and starts the hub and router unconditionally, so a fatal init
failure does not abort startup. -/
theorem init_failure_propagation (e : String) (i c d r : Option String) :
    controllerInit (some e) i c d = some e ∧
    controllerInit none (some e) c d = some e ∧
    controllerInit none none (some e) d = some e ∧
    controllerInit none none none (some e) = some e ∧
    storageInit (some e) c d = some e ∧
    storageInit none (some e) d = some e ∧
    storageInit none none (some e) = none ∧
    (apiRun r).hubStarted = true ∧
    (apiRun r).routerStarted = true :=
  ⟨rfl, rfl, rfl, rfl, rfl, rfl, rfl, rfl, rfl⟩

/-- Counterexample to claim C9 as stated: `Hub.Run`'s select statement has
no receive case for the `Relay` endpoint channel, so a value arriving there
is never consumed or dispatched. -/
theorem run_relay_cex :
    runReceives Endpoint.Relay = false ∧
    runStep { known := [], registry := [], heap := fun _ => none,
              next := 0, handlers := [] } (HubMsg.relay ⟨0⟩) = none :=
  ⟨rfl, rfl⟩

/-- Claim C9 as amended: `Hub.Run` is a single loop that receives on three
of the four declared endpoint channels — Subscribe, Unsubscribe, and Leave
— dispatching each received value to the corresponding handler (so registry
mutations are serialized through this loop); the fourth declared channel,
Relay, has no receive case in the select statement. -/
theorem run_select_dispatch (h : Hub) (d : Demand) (c : Client) (s : StreamSet) :
    runStep h (HubMsg.sub d) = some (subscribe h d) ∧
    runStep h (HubMsg.unsub d) = some (unsubscribe h d) ∧
    runStep h (HubMsg.leave c) = some (clientLeave h c) ∧
    runStep h (HubMsg.relay s) = none ∧
    runReceives Endpoint.Subscribe = true ∧
    runReceives Endpoint.Unsubscribe = true ∧
    runReceives Endpoint.Leave = true ∧
    runReceives Endpoint.Relay = false :=
  ⟨rfl, rfl, rfl, rfl, rfl, rfl, rfl, rfl⟩

lemma sends_append (a b : List RoundOut) : sends (a ++ b) = sends a ++ sends b := by
  induction a with
  | nil => rfl
  | cons ro rest ih => simp [sends, ih]

lemma queueOf_append (cl : Client) (a b : List RoundOut) :
    queueOf cl (a ++ b) = queueOf cl a ++ queueOf cl b := by
  unfold queueOf
  rw [sends_append, List.filter_append, List.map_append]

lemma pushes_eq (cl : Client) (f : ResponseFrame) (recvs : List Client)
    (hnd : recvs.Nodup) :
    ((recvs.map (fun c => (c, f))).filter (fun p => p.1 = cl)).map (fun p => p.2) =
      if cl ∈ recvs then [f] else [] := by
  induction recvs with
  | nil => simp
  | cons d rest ih =>
    have hnd' : rest.Nodup := (List.nodup_cons.mp hnd).2
    have hdm : d ∉ rest := (List.nodup_cons.mp hnd).1
    by_cases hd : d = cl
    · subst hd
      simp [List.filter_cons, ih hnd', hdm]
    · simp only [List.map_cons, List.filter_cons]
      have hpf : ¬((d, f).1 = cl) := hd
      have hcd : ¬cl = d := fun hh => hd hh.symm
      simp [hpf, ih hnd', List.mem_cons, hcd]

lemma queueOf_single (cl : Client) (f : ResponseFrame) (recvs : List Client)
    (hnd : recvs.Nodup) :
    queueOf cl [⟨f, recvs⟩] = if cl ∈ recvs then [f] else [] := by
  unfold queueOf
  have hs : sends [⟨f, recvs⟩] = recvs.map (fun c => (c, f)) := by
    simp [sends]
  rw [hs]
  exact pushes_eq cl f recvs hnd

lemma fanRounds_const (cid ev : String) (recvs : List Client) (hne : recvs ≠ [])
    (samples : List StreamSet) :
    fanRounds cid ev (samples.map (fun s => (s, recvs))) =
      samples.map (fun s => ⟨⟨cid, ev, s.data⟩, recvs⟩) := by
  induction samples with
  | nil => rfl
  | cons s rest ih => simp [fanRounds, hne, ih]

/-- Claim C3: per stream sample the fan-out loop builds exactly one
`ResponseFrame` carrying the resource's container id, kind and the sample
data, shared by all pushes of that round, and N concurrently subscribed
(distinct) receivers each observe the identical ordered sequence of frames
in production order. -/
theorem fanout_fidelity (cid ev : String) (recvs : List Client)
    (samples : List StreamSet) (hne : recvs ≠ []) (hnd : recvs.Nodup) :
    fanRounds cid ev (samples.map (fun s => (s, recvs))) =
      samples.map (fun s => ⟨⟨cid, ev, s.data⟩, recvs⟩) ∧
    ∀ cl ∈ recvs,
      queueOf cl (fanRounds cid ev (samples.map (fun s => (s, recvs)))) =
        samples.map (fun s => ⟨cid, ev, s.data⟩) := by
  refine ⟨fanRounds_const cid ev recvs hne samples, ?_⟩
  intro cl hm
  rw [fanRounds_const cid ev recvs hne samples]
  induction samples with
  | nil => rfl
  | cons s rest ih =>
    have step :
        (⟨⟨cid, ev, s.data⟩, recvs⟩ : RoundOut) ::
            rest.map (fun s => (⟨⟨cid, ev, s.data⟩, recvs⟩ : RoundOut)) =
          [⟨⟨cid, ev, s.data⟩, recvs⟩] ++
            rest.map (fun s => (⟨⟨cid, ev, s.data⟩, recvs⟩ : RoundOut)) := rfl
    rw [List.map_cons, step, queueOf_append, queueOf_single cl _ recvs hnd,
      if_pos hm, ih]
    rfl

/-- Witness for C3: two distinct receivers of one resource each obtain the
full frame sequence for a three-sample stream. -/
theorem fanout_fidelity_witness :
    fanRounds "c1" "metrics" ([⟨10⟩, ⟨11⟩, ⟨12⟩].map (fun s => (s, [⟨1⟩, ⟨2⟩]))) =
      [⟨⟨"c1", "metrics", 10⟩, [⟨1⟩, ⟨2⟩]⟩, ⟨⟨"c1", "metrics", 11⟩, [⟨1⟩, ⟨2⟩]⟩,
        ⟨⟨"c1", "metrics", 12⟩, [⟨1⟩, ⟨2⟩]⟩] ∧
    queueOf ⟨1⟩ (fanRounds "c1" "metrics"
        ([⟨10⟩, ⟨11⟩, ⟨12⟩].map (fun s => (s, [⟨1⟩, ⟨2⟩])))) =
      [⟨"c1", "metrics", 10⟩, ⟨"c1", "metrics", 11⟩, ⟨"c1", "metrics", 12⟩] ∧
    queueOf ⟨2⟩ (fanRounds "c1" "metrics"
        ([⟨10⟩, ⟨11⟩, ⟨12⟩].map (fun s => (s, [⟨1⟩, ⟨2⟩])))) =
      [⟨"c1", "metrics", 10⟩, ⟨"c1", "metrics", 11⟩, ⟨"c1", "metrics", 12⟩] := by
  have h := fanout_fidelity "c1" "metrics" [⟨1⟩, ⟨2⟩] [⟨10⟩, ⟨11⟩, ⟨12⟩]
    (by decide) (by decide)
  exact ⟨h.1, h.2 ⟨1⟩ (by decide), h.2 ⟨2⟩ (by decide)⟩

lemma fanRounds_append_of_ne (cid ev : String)
    (pre xs : List (StreamSet × List Client)) (hpre : ∀ p ∈ pre, p.2 ≠ []) :
    fanRounds cid ev (pre ++ xs) = fanRounds cid ev pre ++ fanRounds cid ev xs := by
  induction pre with
  | nil => rfl
  | cons p rest ih =>
    obtain ⟨s, recvs⟩ := p
    have hne : recvs ≠ [] := hpre (s, recvs) (List.mem_cons_self _ _)
    have ih' := ih (fun q hq => hpre q (List.mem_cons_of_mem _ hq))
    simp [fanRounds, hne, ih']

lemma regGet_regSet_self (reg : List (String × List RRef)) (key : String)
    (l : List RRef) : regGet (regSet reg key l) key = l := by
  induction reg with
  | nil => simp [regSet, regGet]
  | cons e rest ih =>
    by_cases hk : key = e.1
    · simp [regSet, regGet, hk]
    · simp [regSet, regGet, hk, ih]

lemma regGet_regAppend_self (reg : List (String × List RRef)) (key : String)
    (r : RRef) : regGet (regAppend reg key r) key = regGet reg key ++ [r] := by
  unfold regAppend
  exact regGet_regSet_self reg key _

lemma removeFirst_not_mem {l : List RRef} {r : RRef} (hnd : l.Nodup) :
    r ∉ removeFirst l r := by
  induction l with
  | nil => simp [removeFirst]
  | cons x xs ih =>
    by_cases hx : x = r
    · subst hx
      simpa [removeFirst] using (List.nodup_cons.mp hnd).1
    · simp only [removeFirst, if_neg hx, List.mem_cons]
      push_neg
      exact ⟨fun hh => hx hh.symm, ih (List.nodup_cons.mp hnd).2⟩

lemma removeRessource_eq (h : Hub) (c : String) (r : RRef) (rd : Ressource)
    (hheap : h.heap r = some rd) (hempty : rd.Receivers = [])
    (hmem : r ∈ regGet h.registry c) :
    removeRessource h c r =
      { h with registry := regSet h.registry c (removeFirst (regGet h.registry c) r) } := by
  unfold removeRessource removeRessourcePhased
  rw [hheap]
  simp [hempty, hmem]

/-- Claim C4: once a delivery round ends with an empty receiver list the
fan-out loop breaks (nothing from the remaining stream history is
processed, so no further frame reaches any receiver), then calls `Quit()`
and requests removal from the registry; removal deletes the resource from
the container's registry slice, and a subsequent Subscribe for the same
(container, kind) allocates a new resource at a fresh address instead of
reusing the terminated one. -/
theorem fanout_termination_reclaim (cid ev : String)
    (pre rest : List (StreamSet × List Client)) (s : StreamSet)
    (h : Hub) (r : RRef) (rd : Ressource) (cl : Client)
    (hpre : ∀ p ∈ pre, p.2 ≠ [])
    (hheap : h.heap r = some rd)
    (hempty : rd.Receivers = [])
    (hmem : r ∈ regGet h.registry cid)
    (hnd : (regGet h.registry cid).Nodup)
    (hlt : r < h.next)
    (hlook : hubRessource (removeRessource h cid r) cid ev = none)
    (hknown : containerGet h cid = some cid) :
    fanRounds cid ev (pre ++ (s, []) :: rest) =
      fanRounds cid ev pre ++ [⟨⟨cid, ev, s.data⟩, []⟩] ∧
    (∀ cl', queueOf cl' (fanRounds cid ev (pre ++ (s, []) :: rest)) =
      queueOf cl' (fanRounds cid ev pre)) ∧
    (handleRessource cid ev (pre ++ (s, []) :: rest)).post =
      [PostAction.quit, PostAction.removeRequest] ∧
    r ∉ regGet (removeRessource h cid r).registry cid ∧
    (subscribe (removeRessource h cid r) ⟨ev, cid, cl⟩).heap h.next =
      some (newRessource cid ev cl) ∧
    h.next ∈ regGet (subscribe (removeRessource h cid r) ⟨ev, cid, cl⟩).registry cid ∧
    h.next ≠ r ∧
    r ∉ regGet (subscribe (removeRessource h cid r) ⟨ev, cid, cl⟩).registry cid := by
  have hfan : fanRounds cid ev (pre ++ (s, []) :: rest) =
      fanRounds cid ev pre ++ [⟨⟨cid, ev, s.data⟩, []⟩] := by
    rw [fanRounds_append_of_ne cid ev pre _ hpre]
    simp [fanRounds]
  have hrem := removeRessource_eq h cid r rd hheap hempty hmem
  have hregderef : regGet (removeRessource h cid r).registry cid =
      removeFirst (regGet h.registry cid) r := by
    rw [hrem]
    exact regGet_regSet_self _ _ _
  have hnotmem : r ∉ regGet (removeRessource h cid r).registry cid := by
    rw [hregderef]
    exact removeFirst_not_mem hnd
  have hknown' : containerGet (removeRessource h cid r) cid = some cid := by
    rw [hrem]
    exact hknown
  have hsub : subscribe (removeRessource h cid r) ⟨ev, cid, cl⟩ =
      { removeRessource h cid r with
        heap := fun x => if x = (removeRessource h cid r).next then
          some (newRessource cid ev cl) else (removeRessource h cid r).heap x
        registry := regAppend (removeRessource h cid r).registry cid
          (removeRessource h cid r).next
        next := (removeRessource h cid r).next + 1
        handlers := (removeRessource h cid r).handlers ++
          [(removeRessource h cid r).next] } := by
    unfold subscribe
    rw [show (⟨ev, cid, cl⟩ : Demand).CID = cid from rfl,
      show (⟨ev, cid, cl⟩ : Demand).Ressource = ev from rfl, hknown', hlook]
  have hnext : (removeRessource h cid r).next = h.next := by rw [hrem]
  have hreg2 : regGet (subscribe (removeRessource h cid r) ⟨ev, cid, cl⟩).registry cid =
      regGet (removeRessource h cid r).registry cid ++ [h.next] := by
    rw [hsub, hnext]
    exact regGet_regAppend_self _ _ _
  have hner : h.next ≠ r := Ne.symm (Nat.ne_of_lt hlt)
  refine ⟨hfan, ?_, rfl, hnotmem, ?_, ?_, hner, ?_⟩
  · intro cl'
    rw [hfan, queueOf_append]
    have : queueOf cl' [⟨⟨cid, ev, s.data⟩, []⟩] = [] := rfl
    rw [this, List.append_nil]
  · rw [hsub, hnext]
    simp
  · rw [hreg2]
    exact List.mem_append_right _ (List.mem_cons_self _ _)
  · rw [hreg2]
    intro hc
    rcases List.mem_append.mp hc with hc | hc
    · exact hnotmem hc
    · rcases List.mem_cons.mp hc with hc | hc
      · exact hner hc.symm
      · cases hc

def c4hub : Hub :=
  { known := ["c1"], registry := [("c1", [0])],
    heap := fun x => if x = 0 then some ⟨"c1", "metrics", []⟩ else none,
    next := 1, handlers := [0] }

/-- Witness for C4 at a concrete run: one nonempty round, then an empty
round stops delivery; removal empties the registry slice and the next
subscribe allocates address 1 instead of reusing address 0. -/
theorem fanout_termination_reclaim_witness :
    fanRounds "c1" "metrics" ([(⟨10⟩, [⟨5⟩])] ++ (⟨11⟩, []) :: [(⟨12⟩, [⟨6⟩])]) =
      fanRounds "c1" "metrics" [(⟨10⟩, [⟨5⟩])] ++ [⟨⟨"c1", "metrics", 11⟩, []⟩] ∧
    queueOf ⟨5⟩ (fanRounds "c1" "metrics"
        ([(⟨10⟩, [⟨5⟩])] ++ (⟨11⟩, []) :: [(⟨12⟩, [⟨6⟩])])) =
      queueOf ⟨5⟩ (fanRounds "c1" "metrics" [(⟨10⟩, [⟨5⟩])]) ∧
    (0 : RRef) ∉ regGet (removeRessource c4hub "c1" 0).registry "c1" ∧
    (subscribe (removeRessource c4hub "c1" 0) ⟨"metrics", "c1", ⟨9⟩⟩).heap
      c4hub.next = some (newRessource "c1" "metrics" ⟨9⟩) ∧
    c4hub.next ∈ regGet
      (subscribe (removeRessource c4hub "c1" 0) ⟨"metrics", "c1", ⟨9⟩⟩).registry "c1" ∧
    (0 : RRef) ∉ regGet
      (subscribe (removeRessource c4hub "c1" 0) ⟨"metrics", "c1", ⟨9⟩⟩).registry "c1" := by
  have h := fanout_termination_reclaim "c1" "metrics" [(⟨10⟩, [⟨5⟩])]
    [(⟨12⟩, [⟨6⟩])] ⟨11⟩ c4hub 0 ⟨"c1", "metrics", []⟩ ⟨9⟩
    (by decide) (by decide) (by decide) (by decide) (by decide) (by decide)
    (by decide) (by decide)
  exact ⟨h.1, h.2.1 ⟨5⟩, h.2.2.2.1, h.2.2.2.2.1, h.2.2.2.2.2.1, h.2.2.2.2.2.2.2⟩

def c5hub : Hub :=
  { known := ["c1"], registry := [("c1", [0])],
    heap := fun x => if x = 0 then some ⟨"c1", "metrics", []⟩ else none,
    next := 1, handlers := [0] }

/-- Counterexample to claim C5 as stated: the receiver-count check of
`RemoveRessource` runs before `h.mutex.Lock()` is acquired, so it is not
in the removal's critical section.  Concretely, with the check executed
against `c5hub` (resource 0 has an empty receiver list) and a Subscribe
interleaved before the lock is taken, the resource's receiver list is
`[⟨7⟩]` at removal time, yet the removal still deletes it from the
registry — refuting "removes ... only if the Resource's receiver list is
still empty at removal time ... inside the same lock acquisition". -/
theorem removeRessource_stale_check_cex :
    (subscribe c5hub ⟨"metrics", "c1", ⟨7⟩⟩).heap 0 =
      some { ContainerID := "c1", Event := "metrics", Receivers := [⟨7⟩] } ∧
    regGet (removeRessourcePhased c5hub
      (subscribe c5hub ⟨"metrics", "c1", ⟨7⟩⟩) "c1" 0).registry "c1" = [] := by
  constructor
  · decide
  · decide

/-- Claim C5 as amended: `RemoveRessource` removes the resource from the
registry slice by identity match, but the receiver-count check runs before
the lock is acquired, in a separate step from the removal's critical
section: it guards emptiness at check time only, and the removal applies
to the lock-time state regardless of the receivers the resource holds
then.  If the check-time receiver list is non-empty, or the resource is
absent from the container's registry slice, the registry is left
unchanged. -/
theorem removeRessource_check_semantics (h0 h1 h : Hub) (c : String) (r : RRef) :
    (∀ rd, h.heap r = some rd → rd.Receivers ≠ [] → removeRessource h c r = h) ∧
    (r ∉ regGet h.registry c → removeRessource h c r = h) ∧
    (∀ rd, h0.heap r = some rd → rd.Receivers = [] → r ∈ regGet h0.registry c →
      removeRessourcePhased h0 h1 c r =
        { h1 with
            registry := regSet h1.registry c (removeFirst (regGet h0.registry c) r) }) := by
  refine ⟨?_, ?_, ?_⟩
  · intro rd hheap hne
    unfold removeRessource removeRessourcePhased
    rw [hheap]
    have : rd.Receivers.length ≠ 0 := by
      intro hl
      exact hne (List.length_eq_zero.mp hl)
    simp [this]
  · intro hnm
    unfold removeRessource removeRessourcePhased
    cases hh : h.heap r with
    | none => rfl
    | some rd =>
      by_cases hl : rd.Receivers.length = 0
      · simp [hl, hnm]
      · simp [hl]
  · intro rd hheap hempty hmem
    unfold removeRessourcePhased
    rw [hheap]
    simp [hempty, hmem]

/-- Witness for C5's amended statement: a resource with a receiver is left
alone, an unregistered address is a no-op, and the phased removal acts on
the lock-time state using the check-time data. -/
theorem removeRessource_check_semantics_witness :
    removeRessource
      { known := ["c1"], registry := [("c1", [0])],
        heap := fun x => if x = 0 then some ⟨"c1", "metrics", [⟨7⟩]⟩ else none,
        next := 1, handlers := [0] } "c1" 0 =
      { known := ["c1"], registry := [("c1", [0])],
        heap := fun x => if x = 0 then some ⟨"c1", "metrics", [⟨7⟩]⟩ else none,
        next := 1, handlers := [0] } ∧
    removeRessource c5hub "c1" 3 = c5hub ∧
    removeRessourcePhased c5hub c5hub "c1" 0 =
      { c5hub with
          registry := regSet c5hub.registry "c1" (removeFirst (regGet c5hub.registry "c1") 0) } := by
  refine ⟨?_, ?_, ?_⟩
  · exact (removeRessource_check_semantics c5hub c5hub _ "c1" 0).1
      ⟨"c1", "metrics", [⟨7⟩]⟩ (by decide) (by decide)
  · exact (removeRessource_check_semantics c5hub c5hub c5hub "c1" 3).2.1 (by decide)
  · exact (removeRessource_check_semantics c5hub c5hub c5hub "c1" 0).2.2
      ⟨"c1", "metrics", []⟩ (by decide) (by decide) (by decide)

lemma removeClient_idem (cl : Client) (rd : Ressource) :
    removeClient cl (removeClient cl rd) = removeClient cl rd := by
  simp [removeClient, List.filter_filter]

lemma removeClient_comp (cl : Client) :
    removeClient cl ∘ removeClient cl = removeClient cl :=
  funext fun rd => removeClient_idem cl rd

lemma leaveRefs_apply (hp : RRef → Option Ressource) (cl : Client)
    (refs : List RRef) (x : RRef) :
    leaveRefs hp cl refs x =
      if x ∈ refs then (hp x).map (removeClient cl) else hp x := by
  induction refs generalizing hp with
  | nil => simp [leaveRefs]
  | cons ref rest ih =>
    simp only [leaveRefs]
    rw [ih]
    by_cases hm : x ∈ rest
    · rw [if_pos hm, if_pos (List.mem_cons_of_mem _ hm)]
      unfold heapMap
      by_cases hx : x = ref
      · rw [if_pos hx, Option.map_map, removeClient_comp]
      · rw [if_neg hx]
    · rw [if_neg hm]
      unfold heapMap
      by_cases hx : x = ref
      · rw [if_pos hx, if_pos (by rw [hx]; exact List.mem_cons_self _ _)]
      · rw [if_neg hx, if_neg (by
          intro hc
          rcases List.mem_cons.mp hc with hc | hc
          · exact hx hc
          · exact hm hc)]

lemma leaveReg_apply (hp : RRef → Option Ressource) (cl : Client)
    (reg : List (String × List RRef)) (x : RRef) :
    leaveReg hp cl reg x =
      if x ∈ registryRefs reg then (hp x).map (removeClient cl) else hp x := by
  induction reg generalizing hp with
  | nil => simp [leaveReg, registryRefs]
  | cons e rest ih =>
    simp only [leaveReg, registryRefs, List.mem_append]
    rw [ih, leaveRefs_apply]
    by_cases h1 : x ∈ e.2 <;> by_cases h2 : x ∈ registryRefs rest <;>
      simp [h1, h2, Option.map_map, removeClient_comp]

/-- Claim C7: `ClientLeave(c)` removes the client from the receiver list of
every resource of every container in the registry (no receiver list retains
it), while every other client's membership in every receiver list, the set
of registered resources, and all resources outside the registry are left
unchanged. -/
theorem clientLeave_removes_everywhere (h : Hub) (cl : Client) (ref : RRef)
    (rd : Ressource) (href : ref ∈ registryRefs h.registry)
    (hheap : h.heap ref = some rd) :
    (clientLeave h cl).registry = h.registry ∧
    (clientLeave h cl).handlers = h.handlers ∧
    (clientLeave h cl).next = h.next ∧
    (clientLeave h cl).heap ref = some (removeClient cl rd) ∧
    cl ∉ (removeClient cl rd).Receivers ∧
    (∀ c', c' ≠ cl → (c' ∈ (removeClient cl rd).Receivers ↔ c' ∈ rd.Receivers)) ∧
    (∀ x, x ∉ registryRefs h.registry → (clientLeave h cl).heap x = h.heap x) := by
  have hlr : (clientLeave h cl).heap = leaveReg h.heap cl h.registry := rfl
  refine ⟨rfl, rfl, rfl, ?_, ?_, ?_, ?_⟩
  · rw [hlr, leaveReg_apply, if_pos href, hheap]
    rfl
  · simp [removeClient, List.mem_filter]
  · intro c' hc'
    simp [removeClient, List.mem_filter, hc']
  · intro x hx
    rw [hlr, leaveReg_apply, if_neg hx]

def c7hub : Hub :=
  { known := ["c1", "c2"], registry := [("c1", [0]), ("c2", [1])],
    heap := fun x =>
      if x = 0 then some ⟨"c1", "metrics", [⟨7⟩, ⟨8⟩]⟩
      else if x = 1 then some ⟨"c2", "logs", [⟨7⟩]⟩ else none,
    next := 2, handlers := [0, 1] }

/-- Witness for C7: client 7, registered on resources of two containers,
is removed from a receiver list while client 8 stays and the registry is
untouched. -/
theorem clientLeave_removes_everywhere_witness :
    (clientLeave c7hub ⟨7⟩).registry = c7hub.registry ∧
    (clientLeave c7hub ⟨7⟩).heap 0 = some ⟨"c1", "metrics", [⟨8⟩]⟩ ∧
    (⟨7⟩ : Client) ∉ (removeClient ⟨7⟩ ⟨"c1", "metrics", [⟨7⟩, ⟨8⟩]⟩).Receivers := by
  have h := clientLeave_removes_everywhere c7hub ⟨7⟩ 0
    ⟨"c1", "metrics", [⟨7⟩, ⟨8⟩]⟩ (by decide) (by decide)
  exact ⟨h.1, h.2.2.2.1.trans (by decide), h.2.2.2.2.1⟩

/-- The (containerID, kind) identity of a resource. -/
def identOf (rd : Ressource) : String × String := (rd.ContainerID, rd.Event)

/-- The identities of all live resources reachable from the registry. -/
def identList (h : Hub) : List (String × String) :=
  (registryRefs h.registry).filterMap (fun ref => (h.heap ref).map identOf)

/-- At most one live resource per (container, kind): the registry's
identity list has no duplicates. -/
def uniqIdent (h : Hub) : Prop := (identList h).Nodup

/-- Every resource registered under a container key carries that key as its
`ContainerID` (evaluable form). -/
def keyMatchB (hp : RRef → Option Ressource) (key : String) (ref : RRef) : Bool :=
  match hp ref with
  | some rd => rd.ContainerID == key
  | none => true

lemma containerGet_some {h : Hub} {cid c : String}
    (hc : containerGet h cid = some c) : c = cid := by
  unfold containerGet at hc
  by_cases hm : cid ∈ h.known
  · rw [if_pos hm] at hc
    injection hc with h1
    exact h1.symm
  · rw [if_neg hm] at hc
    cases hc

lemma hubRessource_some_cg {h : Hub} {cid ev : String} {ref : RRef}
    (hr : hubRessource h cid ev = some ref) : containerGet h cid = some cid := by
  unfold hubRessource at hr
  cases hc : containerGet h cid with
  | none => rw [hc] at hr; cases hr
  | some c => rw [containerGet_some hc]

lemma findRes_none {hp : RRef → Option Ressource} {refs : List RRef}
    {cid ev : String} (hf : findRes hp refs cid ev = none) :
    ∀ x ∈ refs, ∀ rd, hp x = some rd → ¬(rd.ContainerID = cid ∧ rd.Event = ev) := by
  induction refs with
  | nil =>
    intro x hx
    cases hx
  | cons ref rest ih =>
    intro x hx rd hrd hcontra
    rcases List.mem_cons.mp hx with hx1 | hx1
    · subst hx1
      simp only [findRes] at hf
      rw [hrd] at hf
      have hf2 : (if rd.ContainerID = cid ∧ rd.Event = ev then some x
          else findRes hp rest cid ev) = none := hf
      rw [if_pos hcontra] at hf2
      cases hf2
    · simp only [findRes] at hf
      cases hh : hp ref with
      | none =>
        rw [hh] at hf
        exact ih hf x hx1 rd hrd hcontra
      | some rd0 =>
        rw [hh] at hf
        have hf2 : (if rd0.ContainerID = cid ∧ rd0.Event = ev then some ref
            else findRes hp rest cid ev) = none := hf
        by_cases hcond : rd0.ContainerID = cid ∧ rd0.Event = ev
        · rw [if_pos hcond] at hf2
          cases hf2
        · rw [if_neg hcond] at hf2
          exact ih hf2 x hx1 rd hrd hcontra

lemma mem_registryRefs {reg : List (String × List RRef)} {x : RRef} :
    x ∈ registryRefs reg ↔ ∃ e ∈ reg, x ∈ e.2 := by
  induction reg with
  | nil => simp [registryRefs]
  | cons e rest ih => simp [registryRefs, List.mem_append, ih]

lemma regGet_of_mem {reg : List (String × List RRef)}
    (hk : (reg.map Prod.fst).Nodup) {c : String} {l : List RRef}
    (hm : (c, l) ∈ reg) : regGet reg c = l := by
  induction reg with
  | nil => cases hm
  | cons e rest ih =>
    rcases List.mem_cons.mp hm with hm1 | hm1
    · subst hm1
      simp [regGet]
    · have hk1 : e.1 ∉ rest.map Prod.fst := (List.nodup_cons.mp hk).1
      have hkr : (rest.map Prod.fst).Nodup := (List.nodup_cons.mp hk).2
      have hne : c ≠ e.1 := by
        intro hce
        apply hk1
        rw [← hce]
        exact List.mem_map.mpr ⟨(c, l), hm1, rfl⟩
      simp [regGet, hne, ih hkr hm1]

lemma filterMap_congr_mem {α β : Type} (f g : α → Option β) (l : List α)
    (hfg : ∀ x ∈ l, f x = g x) : l.filterMap f = l.filterMap g := by
  induction l with
  | nil => rfl
  | cons a rest ih =>
    rw [List.filterMap_cons, List.filterMap_cons, hfg a (List.mem_cons_self _ _),
      ih (fun x hx => hfg x (List.mem_cons_of_mem _ hx))]

lemma registryRefs_regAppend_perm (reg : List (String × List RRef)) (key : String)
    (n : RRef) :
    (registryRefs (regAppend reg key n)).Perm (n :: registryRefs reg) := by
  induction reg with
  | nil => simp [regAppend, regGet, regSet, registryRefs]
  | cons e rest ih =>
    by_cases hk : key = e.1
    · simp only [regAppend, regGet, regSet, if_pos hk, registryRefs]
      have hshape : (e.2 ++ [n]) ++ registryRefs rest = e.2 ++ n :: registryRefs rest := by
        simp
      rw [hshape]
      exact List.perm_middle
    · simp only [regAppend, regGet, regSet, if_neg hk, registryRefs]
      simp only [regAppend] at ih
      exact (List.Perm.append_left e.2 ih).trans List.perm_middle

instance uniqIdentDecidable (h : Hub) : Decidable (uniqIdent h) :=
  inferInstanceAs (Decidable (identList h).Nodup)

/-- Claim C1: under the hub's registry invariants (unique container keys,
resources filed under their own container's key, all registered addresses
previously allocated) and at most one live resource per (container, kind),
`Subscribe` appends the demanding client to the existing resource when one
is registered for (CID, kind), creates-registers-launches a new one only
when none exists, and preserves the at-most-one-live-resource-per-identity
invariant. -/
theorem subscribe_dedup (h : Hub) (dem : Demand)
    (hkeys : (h.registry.map Prod.fst).Nodup)
    (hkm : ∀ e ∈ h.registry, ∀ ref ∈ e.2, keyMatchB h.heap e.1 ref = true)
    (halloc : ∀ ref ∈ registryRefs h.registry, ref < h.next)
    (huniq : uniqIdent h) :
    (∀ ref, hubRessource h dem.CID dem.Ressource = some ref →
      subscribe h dem =
        { h with heap := heapMap h.heap ref (appendReceiver dem.Client) }) ∧
    (containerGet h dem.CID = some dem.CID →
      hubRessource h dem.CID dem.Ressource = none →
      subscribe h dem =
        { h with
            heap := fun x => if x = h.next then some (newRessource dem.CID dem.Ressource dem.Client) else h.heap x
            registry := regAppend h.registry dem.CID h.next
            next := h.next + 1
            handlers := h.handlers ++ [h.next] }) ∧
    uniqIdent (subscribe h dem) := by
  have hbranch1 : ∀ ref, hubRessource h dem.CID dem.Ressource = some ref →
      subscribe h dem =
        { h with heap := heapMap h.heap ref (appendReceiver dem.Client) } := by
    intro ref hr
    have hcg := hubRessource_some_cg hr
    simp only [subscribe, hcg, hr]
  have hbranch2 : containerGet h dem.CID = some dem.CID →
      hubRessource h dem.CID dem.Ressource = none →
      subscribe h dem =
        { h with
            heap := fun x => if x = h.next then some (newRessource dem.CID dem.Ressource dem.Client) else h.heap x
            registry := regAppend h.registry dem.CID h.next
            next := h.next + 1
            handlers := h.handlers ++ [h.next] } := by
    intro hcg hr
    simp only [subscribe, hcg, hr]
  refine ⟨hbranch1, hbranch2, ?_⟩
  cases hc : containerGet h dem.CID with
  | none =>
    have hs : subscribe h dem = h := by simp only [subscribe, hc]
    rw [hs]
    exact huniq
  | some c =>
    have hceq := containerGet_some hc
    subst hceq
    cases hr : hubRessource h dem.CID dem.Ressource with
    | some ref =>
      rw [hbranch1 ref hr]
      show ((registryRefs h.registry).filterMap
        (fun x => (heapMap h.heap ref (appendReceiver dem.Client) x).map identOf)).Nodup
      have hg : (fun x => (heapMap h.heap ref (appendReceiver dem.Client) x).map identOf)
          = (fun x => (h.heap x).map identOf) := by
        funext x
        unfold heapMap
        by_cases hx : x = ref
        · rw [if_pos hx, Option.map_map]
          have hcomp : identOf ∘ appendReceiver dem.Client = identOf :=
            funext fun rd => rfl
          rw [hcomp]
        · rw [if_neg hx]
      rw [hg]
      exact huniq
    | none =>
      rw [hbranch2 hc hr]
      show ((registryRefs (regAppend h.registry dem.CID h.next)).filterMap
        (fun x => (if x = h.next then some (newRessource dem.CID dem.Ressource dem.Client) else h.heap x).map identOf)).Nodup
      have hperm := (registryRefs_regAppend_perm h.registry dem.CID h.next).filterMap
        (fun x => (if x = h.next then some (newRessource dem.CID dem.Ressource dem.Client) else h.heap x).map identOf)
      apply (List.Perm.nodup_iff hperm).mpr
      have hhead : ((if h.next = h.next then some (newRessource dem.CID dem.Ressource dem.Client) else h.heap h.next).map identOf)
          = some (dem.CID, dem.Ressource) := by
        simp [newRessource, identOf]
      have hsplit : List.filterMap
          (fun x => (if x = h.next then some (newRessource dem.CID dem.Ressource dem.Client) else h.heap x).map identOf)
          (h.next :: registryRefs h.registry) =
          (dem.CID, dem.Ressource) :: List.filterMap
            (fun x => (if x = h.next then some (newRessource dem.CID dem.Ressource dem.Client) else h.heap x).map identOf)
            (registryRefs h.registry) := List.filterMap_cons_some hhead
      rw [hsplit]
      have htail : (registryRefs h.registry).filterMap
          (fun x => (if x = h.next then some (newRessource dem.CID dem.Ressource dem.Client) else h.heap x).map identOf)
          = identList h := by
        apply filterMap_congr_mem
        intro x hx
        have hne : x ≠ h.next := Nat.ne_of_lt (halloc x hx)
        show (if x = h.next then some (newRessource dem.CID dem.Ressource dem.Client) else h.heap x).map identOf
          = (h.heap x).map identOf
        rw [if_neg hne]
      rw [htail]
      refine List.nodup_cons.mpr ⟨?_, huniq⟩
      intro hmem
      obtain ⟨x, hxRR, hxval⟩ := List.mem_filterMap.mp hmem
      obtain ⟨rd, hrd, hrdid⟩ := Option.map_eq_some'.mp hxval
      have hcidv : rd.ContainerID = dem.CID := congrArg Prod.fst hrdid
      have hevv : rd.Event = dem.Ressource := congrArg Prod.snd hrdid
      obtain ⟨e, heR, hxe⟩ := mem_registryRefs.mp hxRR
      have hkm' := hkm e heR x hxe
      simp only [keyMatchB, hrd, beq_iff_eq] at hkm'
      have he1 : e.1 = dem.CID := hkm'.symm.trans hcidv
      have heR' : (dem.CID, e.2) ∈ h.registry := by
        rw [← he1]
        exact heR
      have hreg : regGet h.registry dem.CID = e.2 := regGet_of_mem hkeys heR'
      have hfind : findRes h.heap (regGet h.registry dem.CID) dem.CID dem.Ressource
          = none := by
        unfold hubRessource at hr
        rw [hc] at hr
        exact hr
      rw [hreg] at hfind
      exact findRes_none hfind x hxe rd hrd ⟨hcidv, hevv⟩

def c1hub : Hub :=
  { known := ["c1"], registry := [("c1", [0])],
    heap := fun x => if x = 0 then some ⟨"c1", "metrics", [⟨1⟩]⟩ else none,
    next := 1, handlers := [0] }

/-- Witness for C1: subscribing a second client to an already-registered
(container, kind) appends it to the existing resource, and the
one-live-resource-per-identity invariant still holds afterwards. -/
theorem subscribe_dedup_witness :
    subscribe c1hub ⟨"metrics", "c1", ⟨9⟩⟩ =
      { c1hub with heap := heapMap c1hub.heap 0 (appendReceiver ⟨9⟩) } ∧
    uniqIdent (subscribe c1hub ⟨"metrics", "c1", ⟨9⟩⟩) := by
  have h := subscribe_dedup c1hub ⟨"metrics", "c1", ⟨9⟩⟩ (by decide) (by decide)
    (by decide) (by decide)
  exact ⟨h.1 0 (by decide), h.2.2⟩
